import Mathlib

/-!
Verification of the document-ingestion backend (shallow embedding).

Strings are modelled as `List Char`; Python `int` as `Int`; sizes as `Nat`.
Each definition is translated from the corresponding Python function in
`src/`, keeping the source's names where Lean allows it.
-/

/- ### Python string primitives used by the splitter -/

/-- Whitespace characters stripped by Python's `str.lstrip()` (ASCII subset;
the inputs considered here contain only ASCII). -/
def py_whitespace : List Char := [' ', '\t', '\n', '\r', '\x0b', '\x0c']

/-- Python `s.lstrip()`: drop leading whitespace. -/
def lstrip (s : List Char) : List Char :=
  s.dropWhile (fun c => py_whitespace.contains c)

/-- Whether `sub` occurs in `s` starting at index `i` (fully contained). -/
def matches_at (s sub : List Char) (i : Nat) : Bool :=
  (s.drop i).take sub.length == sub

/-- Scan indices `n, n-1, ..., 0` for the highest match of `sub` in `s`. -/
def rfind_down (s sub : List Char) : Nat → Option Nat
  | 0 => if matches_at s sub 0 then some 0 else none
  | n + 1 => if matches_at s sub (n + 1) then some (n + 1) else rfind_down s sub n

/-- Python `s.rfind(sub, 0, stop)`: highest index `i` such that `sub` is fully
contained in `s[0:stop]` starting at `i`; `none` plays the role of `-1`.
For `sub = ""` this returns `min stop (length s)`, as in Python. -/
def py_rfind (s sub : List Char) (stop : Nat) : Option Nat :=
  let e := min stop s.length
  if sub.length ≤ e then rfind_down s sub (e - sub.length) else none

/- ### Data model (src/src/models.py) -/

/-- PageRange from `src/src/models.py`: page span of a chunk. -/
structure PageRange where
  start_page : Int
  end_page : Int
deriving Repr, DecidableEq

/-- BaseChunk from `src/src/models.py`: one emitted chunk.  `chunk` is the
text as a character list. -/
structure BaseChunk where
  chunk_no : String
  chunk : List Char
  page_range : PageRange
deriving Repr, DecidableEq

/-- Input page for `split_text`: the `{page_no, text}` dict. -/
structure PageInput where
  page_no : Int
  text : List Char
deriving Repr, DecidableEq

/- ### SimplePageTextSplitter (src/src/file_processing/splitters.py) -/

/-- DEFAULT_SEPARATORS of `SimplePageTextSplitter`. -/
def DEFAULT_SEPARATORS : List (List Char) :=
  [['\n', '\n'], ['.', '\n'], ['.', ' '], ['\n'], [' '], []]

/-- Translation of `SimplePageTextSplitter._find_split_point`: try each
separator in order with `text.rfind(sep, 0, chunk_size)`; on a hit return
`index + length sep`; otherwise fall back to `min chunk_size (length text)`. -/
def find_split_point (seps : List (List Char)) (chunk_size : Nat)
    (text : List Char) : Nat :=
  match seps with
  | [] => min chunk_size text.length
  | sep :: rest =>
    match py_rfind text sep chunk_size with
    | some i => i + sep.length
    | none => find_split_point rest chunk_size text

/-- Separator scan of `_create_overlap_text`: for the first separator found by
`chunk.rfind(sep, 0, stop)` return `chunk[idx + length sep :]`; fall back to
`chunk[stop:]`. -/
def overlap_rfind (seps : List (List Char)) (chunk : List Char)
    (stop : Nat) : List Char :=
  match seps with
  | [] => chunk.drop stop
  | sep :: rest =>
    match py_rfind chunk sep stop with
    | some i => chunk.drop (i + sep.length)
    | none => overlap_rfind rest chunk stop

/-- Translation of `SimplePageTextSplitter._create_overlap_text`.  Note the
source returns the WHOLE chunk when `chunk_overlap == 0` or the chunk is not
longer than the overlap; otherwise it trims back from
`min_overlap_start = length chunk - chunk_overlap`. -/
def create_overlap_text (chunk_overlap : Nat) (seps : List (List Char))
    (chunk : List Char) : List Char :=
  if chunk_overlap = 0 ∨ chunk.length ≤ chunk_overlap then chunk
  else overlap_rfind seps chunk (chunk.length - chunk_overlap)

/-- Loop state of `split_text`: emitted chunks, the accumulating buffer
(`current_chunk`), the pending overlap, and the running page range. -/
structure SplitState where
  chunks : List BaseChunk
  current_chunk : List Char
  overlap_text : List Char
  current_page_range : Int × Int
deriving Repr, DecidableEq

/-- One iteration of the `while remaining_text:` body of `split_text`
(assumes `remaining ≠ []`).  Returns the new state and the new remaining
text.  Mirrors lines 123-156 of `splitters.py`. -/
def split_step (chunk_size chunk_overlap : Nat) (seps : List (List Char))
    (page_no : Int) (st : SplitState) (remaining : List Char) :
    SplitState × List Char :=
  let range' : Int × Int :=
    ((if st.current_chunk.isEmpty then page_no
      else st.current_page_range.1 - 1), page_no)
  let chunk' : List Char :=
    if st.current_chunk.length + remaining.length ≤ chunk_size then
      st.current_chunk ++ remaining
    else
      st.current_chunk ++
        remaining.take (find_split_point seps chunk_size remaining)
  let remaining' : List Char :=
    if st.current_chunk.length + remaining.length ≤ chunk_size then []
    else lstrip (remaining.drop (find_split_point seps chunk_size remaining))
  if chunk_size ≤ chunk'.length + st.overlap_text.length then
    let full := st.overlap_text ++ chunk'
    ({ chunks := st.chunks ++
        [⟨Nat.repr st.chunks.length, full, ⟨range'.1, range'.2⟩⟩],
       current_chunk := [],
       overlap_text := create_overlap_text chunk_overlap seps full,
       current_page_range := range' }, remaining')
  else
    ({ st with current_chunk := chunk', current_page_range := range' },
     remaining')

/-- The `while remaining_text:` loop, fuel-indexed.  With `1 ≤ chunk_size`
every iteration strictly shrinks the remaining text, so fuel
`length remaining + 1` reproduces the Python loop exactly. -/
def page_loop (chunk_size chunk_overlap : Nat) (seps : List (List Char))
    (page_no : Int) : Nat → SplitState → List Char → SplitState
  | 0, st, _ => st
  | fuel + 1, st, remaining =>
    if remaining.isEmpty then st
    else
      let p := split_step chunk_size chunk_overlap seps page_no st remaining
      page_loop chunk_size chunk_overlap seps page_no fuel p.1 p.2

/-- Body of the `for page in pages:` loop: a page with empty text is skipped
(`continue`), otherwise the while loop runs on its text. -/
def process_page (chunk_size chunk_overlap : Nat) (seps : List (List Char))
    (st : SplitState) (page : PageInput) : SplitState :=
  if page.text.isEmpty then st
  else page_loop chunk_size chunk_overlap seps page.page_no
    (page.text.length + 1) st page.text

/-- Initial loop state of `split_text`. -/
def init_split_state : SplitState := ⟨[], [], [], (0, 0)⟩

/-- Translation of `SimplePageTextSplitter.split_text`.  An empty page list
raises `ValueError` (modelled as `.error`); afterwards the page loop runs and
a non-empty leftover buffer is emitted as a final chunk with the pending
overlap prepended. -/
def split_text (chunk_size chunk_overlap : Nat) (seps : List (List Char))
    (pages : List PageInput) : Except String (List BaseChunk) :=
  if pages.isEmpty then .error "Input pages list cannot be empty"
  else
    let st := pages.foldl (process_page chunk_size chunk_overlap seps)
      init_split_state
    .ok (if st.current_chunk.isEmpty then st.chunks
      else st.chunks ++
        [⟨Nat.repr st.chunks.length,
          st.overlap_text ++ st.current_chunk,
          ⟨st.current_page_range.1, st.current_page_range.2⟩⟩])

/-- Constructor validation of `SimplePageTextSplitter.__init__` (the three
`ValueError` guards). -/
def splitter_params_valid (chunk_size chunk_overlap : Int) : Bool :=
  decide (0 < chunk_size) && decide (0 ≤ chunk_overlap) &&
    decide (chunk_overlap < chunk_size)

/- ### Derived vocabulary for the splitter theorems -/

/-- Overlap pending before the chunk at index `i`, when the pending overlap
before the whole list was `o`: `o` for chunk 0, and `_create_overlap_text`
of the full previous chunk for chunk `i+1`. -/
def prepended_overlap_from (chunk_overlap : Nat) (seps : List (List Char))
    (o : List Char) (l : List BaseChunk) : Nat → List Char
  | 0 => o
  | i + 1 =>
    match l[i]? with
    | some c => create_overlap_text chunk_overlap seps c.chunk
    | none => []

/-- Overlap text that `split_text` prepends to the chunk at index `i`:
empty for chunk 0, and `_create_overlap_text` of the full previous chunk
for chunk `i+1` (this is what the source computes at emission time). -/
def prepended_overlap (chunk_overlap : Nat) (seps : List (List Char))
    (l : List BaseChunk) (i : Nat) : List Char :=
  prepended_overlap_from chunk_overlap seps [] l i

/-- Overlap pending after the chunks `l` have been emitted, when the pending
overlap before them was `o`. -/
def next_overlap_from (chunk_overlap : Nat) (seps : List (List Char))
    (o : List Char) (l : List BaseChunk) : List Char :=
  match l.getLast? with
  | none => o
  | some c => create_overlap_text chunk_overlap seps c.chunk

/-- Chain decomposition of an emitted chunk list: each chunk is its
pending overlap followed by at most `2 * chunk_size - 1` characters of new
buffer content, and the next pending overlap is `_create_overlap_text` of
the full chunk just emitted. -/
def chunk_chain (chunk_size chunk_overlap : Nat) (seps : List (List Char)) :
    List Char → List BaseChunk → Prop
  | _, [] => True
  | o, c :: rest =>
    (∃ b, c.chunk = o ++ b ∧ b.length ≤ 2 * chunk_size - 1) ∧
      chunk_chain chunk_size chunk_overlap seps
        (create_overlap_text chunk_overlap seps c.chunk) rest

/-- Page number of the first input page with non-empty text, if any. -/
def first_nonempty_page (pages : List PageInput) : Option Int :=
  (pages.find? (fun p => !p.text.isEmpty)).map (fun p => p.page_no)

/-- Loop invariant for the chunk-chain decomposition: the emitted chunks
form a chain starting from the empty overlap, the pending overlap is the
one determined by the last emitted chunk, and the buffer (when non-empty)
is still below the emission threshold. -/
def state_inv (chunk_size chunk_overlap : Nat) (seps : List (List Char))
    (st : SplitState) : Prop :=
  chunk_chain chunk_size chunk_overlap seps [] st.chunks ∧
  st.overlap_text = next_overlap_from chunk_overlap seps [] st.chunks ∧
  (st.current_chunk = [] ∨
    st.current_chunk.length + st.overlap_text.length < chunk_size)

/-- Loop invariant for page ranges: every emitted chunk has an ordered
range, and while the buffer is non-empty the running range is ordered with
its end bounded by `low` (a lower bound for all page numbers still to be
processed). -/
def range_inv (st : SplitState) (low : Int) : Prop :=
  (∀ c ∈ st.chunks,
    c.page_range.start_page ≤ c.page_range.end_page) ∧
  (st.current_chunk ≠ [] →
    st.current_page_range.1 ≤ st.current_page_range.2 ∧
      st.current_page_range.2 ≤ low)

/-- Loop invariant for the first chunk's start page: the head of the
emitted chunks starts no later than `p₀` (the first non-empty page), and
before any emission the buffer is non-empty with its range start bounded
by `p₀`. -/
def head_inv (p₀ : Int) (st : SplitState) : Prop :=
  (∀ c, st.chunks.head? = some c → c.page_range.start_page ≤ p₀) ∧
  (st.chunks = [] →
    st.current_chunk ≠ [] ∧ st.current_page_range.1 ≤ p₀)

/- ### Pipeline orchestrator (src/src/pipeline.py, Pipeline.process_file) -/

/-- ProcessingResult from `src/src/pipeline.py` (the `metadata` dict carries
no information used by the claims and is omitted). -/
structure ProcessingResult where
  file_name : String
  num_pages : Nat
  num_texts : Nat
  num_images : Nat
  errors : Option (List String)
deriving Repr, DecidableEq

/-- Outcomes of the effectful stages of `process_file`, abstracted as values:
extraction (returning page/text/image counts), summary generation, the whole
image-processing block (description, indexing, upload scheduling), and the
final `asyncio.gather` join. -/
structure StageOutcomes where
  extraction : Except String (Nat × Nat × Nat)
  summary : Except String String
  image_stage : Except String Unit
  gather : Except String Unit
deriving Repr

/-- Result built by the outer `except` handler of `process_file`: zero
counts, empty metadata and a single fatal entry. -/
def fatal_result (file_name : String) (e : String) : ProcessingResult :=
  ⟨file_name, 0, 0, 0, some ["Fatal error: " ++ e]⟩

/-- Join step (`asyncio.gather`, lines 257-274 of `pipeline.py`) followed by
the success return: a join failure is appended and re-raised (so the outer
handler returns the fresh single-entry fatal list); otherwise the
accumulated error list (or `None` when it is empty) is returned. -/
def join_and_return (file_name : String) (counts : Nat × Nat × Nat)
    (errors : List String) (g : Except String Unit) : ProcessingResult :=
  match g with
  | .error e => fatal_result file_name e
  | .ok _ =>
    ⟨file_name, counts.1, counts.2.1, counts.2.2,
      if errors.isEmpty then none else some errors⟩

/-- Translation of `Pipeline.process_file` control flow (lines 182-284 of
`pipeline.py`).  Summary failure is appended and swallowed; an image-stage
failure is appended and then re-raised, reaching the outer handler (which
builds a fresh single-entry error list, dropping the appended stage
entries). -/
def process_file (file_name : String) (o : StageOutcomes) : ProcessingResult :=
  match o.extraction with
  | .error e => fatal_result file_name e
  | .ok (num_pages, num_texts, num_images) =>
    let errors : List String :=
      if num_texts ≠ 0 ∨ num_images ≠ 0 then
        match o.summary with
        | .error e => ["Summary generation failed: " ++ e]
        | .ok _ => []
      else []
    if num_images ≠ 0 then
      match o.image_stage with
      | .error e => fatal_result file_name e
      | .ok _ => join_and_return file_name (num_pages, num_texts, num_images)
          errors o.gather
    else join_and_return file_name (num_pages, num_texts, num_images)
      errors o.gather

/-- An orchestrator-level fatal error occurs: extraction fails, or the image
stage fails (and runs, i.e. images exist), or the join fails (and is
reached). -/
def fatal_occurred (o : StageOutcomes) : Prop :=
  match o.extraction with
  | .error _ => True
  | .ok (_, _, num_images) =>
    (num_images ≠ 0 ∧ ∃ e, o.image_stage = .error e) ∨
      ((num_images = 0 ∨ o.image_stage = .ok ()) ∧ ∃ e, o.gather = .error e)

/- ### Image chunks (Pipeline._create_image_chunks, pdf_parsing.py) -/

/-- FileImage from `src/src/pdf_parsing.py`. -/
structure FileImage where
  page_no : Int
  image_no : Int
  image_base64 : String
deriving Repr, DecidableEq

/-- Translation of `Pipeline._create_image_chunks`: zip images with their
descriptions and build one chunk per pair, with `chunk_no`
`"{page_no}_{image_no}"` and a degenerate page range. -/
def create_image_chunks (images : List FileImage)
    (descriptions : List String) : List BaseChunk :=
  (images.zip descriptions).map fun p =>
    ⟨toString p.1.page_no ++ "_" ++ toString p.1.image_no,
     p.2.data, ⟨p.1.page_no, p.1.page_no⟩⟩

/-- Translation of `process_page_as_an_image` from `pdf_parsing.py`: the
whole page becomes a single `FileImage` whose `image_no` is the page number
(the rendered base64 payload is a parameter). -/
def process_page_as_an_image (page_no : Int) (page_b64 : String) :
    List Int × List FileImage :=
  ([], [⟨page_no, page_no, page_b64⟩])

/- ### Page classification (src/src/pdf_parsing.py) -/

/-- Drawing record as consumed by `is_drawing_not_visible` and
`get_page_drawings_stats`: the attribute lookups `item.get(...)` are
modelled with `Option` (absent key or `None`), defaults applied at use
sites as in the source.  `items` holds the type code (`"c"`, `"l"`,
`"qu"`, `"re"`) of each primitive in the path. -/
structure Drawing where
  fill : Option (List Rat)
  fill_opacity : Option Rat
  color : Option (List Rat)
  stroke_opacity : Option Rat
  width : Option Rat
  items : List String
deriving Repr

/-- Translation of `is_drawing_not_visible`: no fill (absent, or zero
opacity) and no visible stroke (no color, or zero opacity, or non-positive
width). -/
def is_drawing_not_visible (d : Drawing) : Bool :=
  let no_fill := d.fill.isNone || (d.fill_opacity.getD 1 == 0)
  let no_stroke := d.color.isNone || (d.stroke_opacity.getD 1 == 0) ||
    decide (d.width.getD 1 ≤ 0)
  no_fill && no_stroke

/-- Item type codes of all visible drawings of a page, in order.  This is
the multiset underlying the count dict built by
`get_page_drawings_stats(page, get_invisible_elements=False)`. -/
def visible_items (drawings : List Drawing) : List String :=
  (drawings.filter (fun d => !is_drawing_not_visible d)).flatMap
    (fun d => d.items)

/-- Count of visible non-rectangle primitives: the sum
`sum(v for k, v in stats.items() if k != "re")` of `is_infographic_page`. -/
def visible_non_re_count (drawings : List Drawing) : Nat :=
  ((visible_items drawings).filter (fun t => t ≠ "re")).length

/-- Translation of `is_infographic_page`: flag the page as image-only when
the count of visible non-rectangle primitives reaches 9. -/
def is_infographic_page (drawings : List Drawing) : Bool :=
  decide (9 ≤ visible_non_re_count drawings)

/- ### Duplicate checker (src/src/check_duplicates.py) and upload flow -/

/-- The `known_dict` of `DuplicateChecker`. -/
structure KnownDict where
  known_titles : List String
  known_hashes : List String
  known_file_names : List String
deriving Repr, DecidableEq

/-- Inner `add_to_known_dict` of `DuplicateChecker.update`: a falsy value
(`None` or `""`) is ignored; otherwise the value is added with set
semantics (the source's `list(set(.. + [value]))` — membership-equivalent;
insertion order of the Python set is immaterial to the claims). -/
def add_to_known_dict (l : List String) (v : Option String) : List String :=
  match v with
  | none => l
  | some s => if s = "" then l else if s ∈ l then l else l ++ [s]

/-- Translation of `DuplicateChecker.update`. -/
def checker_update (kd : KnownDict) (file_hash file_name title : Option String) :
    KnownDict :=
  ⟨add_to_known_dict kd.known_titles title,
   add_to_known_dict kd.known_hashes file_hash,
   add_to_known_dict kd.known_file_names file_name⟩

/-- Translation of `DuplicateChecker.duplicate_by_hash` (Python `in`). -/
def duplicate_by_hash (kd : KnownDict) (h : String) : Bool :=
  decide (h ∈ kd.known_hashes)

/-- Translation of `DuplicateChecker.duplicate_by_file_name` (Python `in`). -/
def duplicate_by_file_name (kd : KnownDict) (n : String) : Bool :=
  decide (n ∈ kd.known_file_names)

/-- One uploaded file as read by the endpoint: name and raw content bytes
(modelled as a character list). -/
structure FileData where
  filename : String
  content : List Char
deriving Repr, DecidableEq

/-- Per-file entry appended to `results` by `process_files_in_background`. -/
inductive BgResult where
  | processed (file_name : String) (r : ProcessingResult)
  | alreadyProcessed (file_name : String)
deriving Repr, DecidableEq

/-- Python truthiness of `result.errors` negated: `not result.errors`. -/
def errors_falsy : Option (List String) → Bool
  | none => true
  | some [] => true
  | some (_ :: _) => false

/-- Body of the `for file_info in file_data:` loop of
`process_files_in_background` (src/src/main.py lines 56-91): skip when the
marked name `f"{user_name}_{filename}"` is already known, otherwise run the
pipeline (abstracted as `pipeline`) and register the marked FILE NAME — not
any content hash — when the result has no errors. -/
def bg_step (pipeline : FileData → ProcessingResult) (user_name : String)
    (acc : KnownDict × List BgResult) (fi : FileData) :
    KnownDict × List BgResult :=
  let marked := user_name ++ "_" ++ fi.filename
  if duplicate_by_file_name acc.1 marked then
    (acc.1, acc.2 ++ [.alreadyProcessed fi.filename])
  else
    let r := pipeline fi
    let kd' := if errors_falsy r.errors then
        checker_update acc.1 none (some marked) none
      else acc.1
    (kd', acc.2 ++ [.processed fi.filename r])

/-- Translation of `process_files_in_background`: fold the per-file step
over the batch, starting from the current registry state. -/
def process_files_in_background (pipeline : FileData → ProcessingResult)
    (user_name : String) (kd : KnownDict) (files : List FileData) :
    KnownDict × List BgResult :=
  files.foldl (bg_step pipeline user_name) (kd, [])

/- ### Task counter (src/src/task_counter.py) and batch admission -/

/-- TaskCounter from `src/src/task_counter.py`. -/
structure TaskCounter where
  active_tasks : Int
deriving Repr, DecidableEq

/-- Translation of `TaskCounter.increment`. -/
def TaskCounter.increment (t : TaskCounter) : TaskCounter :=
  ⟨t.active_tasks + 1⟩

/-- Translation of `TaskCounter.decrement`. -/
def TaskCounter.decrement (t : TaskCounter) : TaskCounter :=
  ⟨t.active_tasks - 1⟩

/-- Translation of the `TaskCounter.is_busy` property. -/
def TaskCounter.is_busy (t : TaskCounter) : Bool :=
  decide (0 < t.active_tasks)

/-- Admission decision and counter effect of the `process_uploaded_files`
endpoint (src/src/main.py lines 20-49).  The handler neither reads nor
writes any counter: it unconditionally registers the background task and
returns the task-id response, for every request, whatever the counter
state; the `TaskCounter` parameter only exposes that (absence of)
dependence. -/
def process_uploaded_files (counter : TaskCounter) (_files : List FileData) :
    Bool × TaskCounter :=
  (true, counter)

/-! ## Helper lemmas -/

/-- Result index of the downward scan is bounded by its starting index. -/
theorem rfind_down_le {s sub : List Char} :
    ∀ {n i : Nat}, rfind_down s sub n = some i → i ≤ n := by
  intro n
  induction n with
  | zero =>
    intro i h
    simp only [rfind_down] at h
    split at h
    · simp_all
    · simp_all
  | succ n ih =>
    intro i h
    simp only [rfind_down] at h
    split at h
    · simp_all
    · exact Nat.le_trans (ih h) (Nat.le_succ n)

/-- A successful `rfind` leaves room for the pattern inside the window. -/
theorem py_rfind_le {s sub : List Char} {stop i : Nat}
    (h : py_rfind s sub stop = some i) :
    i + sub.length ≤ min stop s.length := by
  simp only [py_rfind] at h
  split at h
  · rename_i hle
    have := rfind_down_le h
    omega
  · simp_all

/-- Empty pattern: `rfind` returns the end of the window, as in Python. -/
theorem py_rfind_nil (s : List Char) (stop : Nat) :
    py_rfind s [] stop = some (min stop s.length) := by
  simp only [py_rfind, List.length_nil, Nat.zero_le, if_true, Nat.sub_zero]
  cases h : min stop s.length with
  | zero => simp [rfind_down, matches_at]
  | succ n => simp [rfind_down, matches_at]

/-- The split point never exceeds `chunk_size`. -/
theorem find_split_point_le (seps : List (List Char)) (cs : Nat)
    (text : List Char) : find_split_point seps cs text ≤ cs := by
  induction seps with
  | nil => simp [find_split_point]
  | cons sep rest ih =>
    simp only [find_split_point]
    cases h : py_rfind text sep cs with
    | none => exact ih
    | some i =>
      show i + sep.length ≤ cs
      have hb := py_rfind_le h
      have hm := Nat.min_le_left cs text.length
      omega

/-- With a positive `chunk_size` and non-empty text the split point is
positive (each loop iteration makes progress). -/
theorem find_split_point_pos (seps : List (List Char)) {cs : Nat}
    {text : List Char} (hcs : 1 ≤ cs) (ht : text ≠ []) :
    1 ≤ find_split_point seps cs text := by
  have hlen : 1 ≤ text.length := by
    cases text with
    | nil => simp_all
    | cons a t => simp
  induction seps with
  | nil =>
    simp only [find_split_point]
    omega
  | cons sep rest ih =>
    simp only [find_split_point]
    cases h : py_rfind text sep cs with
    | none => exact ih
    | some i =>
      show 1 ≤ i + sep.length
      cases hsep : sep with
      | nil =>
        rw [hsep, py_rfind_nil] at h
        simp only [List.length_nil]
        have : min cs text.length = i := by simpa using h
        omega
      | cons a t =>
        simp only [List.length_cons]
        omega

/-- The overlap computed by `_create_overlap_text` is a suffix of its
argument (every branch returns the argument or a `drop` of it). -/
theorem create_overlap_text_suffix (co : Nat) (seps : List (List Char))
    (chunk : List Char) :
    create_overlap_text co seps chunk <:+ chunk := by
  simp only [create_overlap_text]
  split
  · exact List.suffix_refl chunk
  · induction seps with
    | nil => exact List.drop_suffix _ _
    | cons sep rest ih =>
      simp only [overlap_rfind]
      cases h : py_rfind chunk sep (chunk.length - co) with
      | none => exact ih
      | some i => exact List.drop_suffix _ _

/-- Pending-overlap computation steps through a cons cell. -/
theorem next_overlap_from_cons (co : Nat) (seps : List (List Char))
    (o : List Char) (d : BaseChunk) (rest : List BaseChunk) :
    next_overlap_from co seps o (d :: rest) =
      next_overlap_from co seps (create_overlap_text co seps d.chunk) rest := by
  cases rest with
  | nil => simp [next_overlap_from]
  | cons e l =>
    cases hgl : (e :: l).getLast? with
    | none =>
      exact absurd (List.getLast?_eq_none_iff.mp hgl) (by simp)
    | some x => simp [next_overlap_from, List.getLast?_cons_cons, hgl]

/-- Pending overlap after appending a chunk is determined by that chunk. -/
theorem next_overlap_from_concat (co : Nat) (seps : List (List Char))
    (o : List Char) (l : List BaseChunk) (c : BaseChunk) :
    next_overlap_from co seps o (l ++ [c]) =
      create_overlap_text co seps c.chunk := by
  simp [next_overlap_from, List.getLast?_concat]

/-- Appending a chunk that decomposes over the current pending overlap
extends the chain. -/
theorem chunk_chain_snoc {cs co : Nat} {seps : List (List Char)} :
    ∀ {o : List Char} {l : List BaseChunk} {c : BaseChunk} {b : List Char},
      chunk_chain cs co seps o l →
      c.chunk = next_overlap_from co seps o l ++ b →
      b.length ≤ 2 * cs - 1 →
      chunk_chain cs co seps o (l ++ [c]) := by
  intro o l
  induction l generalizing o with
  | nil =>
    intro c b _ hc hb
    simp only [List.nil_append, chunk_chain]
    refine ⟨⟨b, ?_, hb⟩, trivial⟩
    simpa [next_overlap_from] using hc
  | cons d rest ih =>
    intro c b h hc hb
    simp only [chunk_chain] at h
    obtain ⟨hd, hrest⟩ := h
    simp only [List.cons_append, chunk_chain]
    refine ⟨hd, ih hrest ?_ hb⟩
    rw [hc, next_overlap_from_cons]

/-- One splitter iteration preserves the chunk-chain invariant. -/
theorem split_step_state_inv {cs co : Nat} {seps : List (List Char)}
    {p : Int} {st : SplitState} {rem : List Char}
    (hcs : 1 ≤ cs) (hinv : state_inv cs co seps st) :
    state_inv cs co seps (split_step cs co seps p st rem).1 := by
  obtain ⟨hchain, hov, hbuf⟩ := hinv
  have hsp : find_split_point seps cs rem ≤ cs := find_split_point_le seps cs rem
  have htake : (rem.take (find_split_point seps cs rem)).length ≤ cs := by
    rw [List.length_take]
    omega
  simp only [split_step]
  by_cases hfit : st.current_chunk.length + rem.length ≤ cs
  · simp only [if_pos hfit]
    by_cases hemit :
        cs ≤ (st.current_chunk ++ rem).length + st.overlap_text.length
    · simp only [if_pos hemit]
      refine ⟨?_, ?_, Or.inl rfl⟩
      · exact chunk_chain_snoc hchain (by rw [hov]) (by simp_all; omega)
      · rw [next_overlap_from_concat]
    · simp only [if_neg hemit]
      refine ⟨hchain, hov, Or.inr ?_⟩
      simp only [List.length_append] at hemit ⊢
      omega
  · simp only [if_neg hfit]
    by_cases hemit :
        cs ≤ (st.current_chunk ++
          rem.take (find_split_point seps cs rem)).length +
          st.overlap_text.length
    · simp only [if_pos hemit]
      refine ⟨?_, ?_, Or.inl rfl⟩
      · refine chunk_chain_snoc hchain (by rw [hov]) ?_
        simp only [List.length_append]
        rcases hbuf with hnil | hbound
        · simp [hnil]; omega
        · omega
      · rw [next_overlap_from_concat]
    · simp only [if_neg hemit]
      refine ⟨hchain, hov, Or.inr ?_⟩
      simp only [List.length_append] at hemit ⊢
      omega

/-- The whole page loop preserves the chunk-chain invariant. -/
theorem page_loop_state_inv {cs co : Nat} {seps : List (List Char)}
    {p : Int} (hcs : 1 ≤ cs) :
    ∀ (fuel : Nat) (st : SplitState) (rem : List Char),
      state_inv cs co seps st →
      state_inv cs co seps (page_loop cs co seps p fuel st rem) := by
  intro fuel
  induction fuel with
  | zero => intro st rem h; simpa [page_loop] using h
  | succ n ih =>
    intro st rem h
    simp only [page_loop]
    by_cases hrem : rem.isEmpty
    · simpa [hrem] using h
    · simp only [hrem, Bool.false_eq_true, if_false]
      exact ih _ _ (split_step_state_inv hcs h)

/-- Processing one page preserves the chunk-chain invariant. -/
theorem process_page_state_inv {cs co : Nat} {seps : List (List Char)}
    (hcs : 1 ≤ cs) {st : SplitState} {page : PageInput}
    (h : state_inv cs co seps st) :
    state_inv cs co seps (process_page cs co seps st page) := by
  simp only [process_page]
  by_cases hp : page.text.isEmpty
  · simpa [hp] using h
  · simp only [hp, Bool.false_eq_true, if_false]
    exact page_loop_state_inv hcs _ _ _ h

/-- Folding the page loop over all pages preserves the invariant. -/
theorem foldl_state_inv {cs co : Nat} {seps : List (List Char)}
    (hcs : 1 ≤ cs) :
    ∀ (pages : List PageInput) (st : SplitState),
      state_inv cs co seps st →
      state_inv cs co seps
        (pages.foldl (process_page cs co seps) st) := by
  intro pages
  induction pages with
  | nil => intro st h; simpa using h
  | cons p rest ih =>
    intro st h
    simp only [List.foldl_cons]
    exact ih _ (process_page_state_inv hcs h)

/-- The initial splitter state satisfies the chunk-chain invariant. -/
theorem init_state_inv (cs co : Nat) (seps : List (List Char)) :
    state_inv cs co seps init_split_state :=
  ⟨trivial, rfl, Or.inl rfl⟩

/-- Every chunk list returned by `split_text` is a chunk chain. -/
theorem split_text_chain {cs co : Nat} {seps : List (List Char)}
    {pages : List PageInput} {l : List BaseChunk}
    (hcs : 1 ≤ cs) (h : split_text cs co seps pages = .ok l) :
    chunk_chain cs co seps [] l := by
  unfold split_text at h
  by_cases hp : pages.isEmpty
  · simp [hp] at h
  · simp only [hp, Bool.false_eq_true, if_false, Except.ok.injEq] at h
    have hst := foldl_state_inv hcs pages init_split_state
      (init_state_inv cs co seps)
    obtain ⟨hchain, hov, hbuf⟩ := hst
    by_cases hcur :
        (pages.foldl (process_page cs co seps) init_split_state)
          |>.current_chunk.isEmpty
    · rw [if_pos hcur] at h
      rw [← h]
      exact hchain
    · rw [if_neg hcur] at h
      rw [← h]
      refine chunk_chain_snoc hchain (by rw [hov]) ?_
      rcases hbuf with hnil | hbound
      · simp [hnil] at hcur
      · omega

/-- Pending-overlap indexing steps through a cons cell. -/
theorem prepended_overlap_from_cons (co : Nat) (seps : List (List Char))
    (o : List Char) (d : BaseChunk) (rest : List BaseChunk) (i : Nat) :
    prepended_overlap_from co seps o (d :: rest) (i + 1) =
      prepended_overlap_from co seps
        (create_overlap_text co seps d.chunk) rest i := by
  cases i with
  | zero => simp [prepended_overlap_from]
  | succ k => simp [prepended_overlap_from]

/-- Chain decomposition, read off at an arbitrary index. -/
theorem chunk_chain_index {cs co : Nat} {seps : List (List Char)} :
    ∀ {o : List Char} {l : List BaseChunk},
      chunk_chain cs co seps o l →
      ∀ (i : Nat) (c : BaseChunk), l[i]? = some c →
        ∃ b, c.chunk = prepended_overlap_from co seps o l i ++ b ∧
          b.length ≤ 2 * cs - 1 := by
  intro o l
  induction l generalizing o with
  | nil => intro _ i c hc; simp at hc
  | cons d rest ih =>
    intro h i c hc
    simp only [chunk_chain] at h
    obtain ⟨hd, hrest⟩ := h
    cases i with
    | zero =>
      simp only [List.getElem?_cons_zero, Option.some.injEq] at hc
      subst hc
      simpa [prepended_overlap_from] using hd
    | succ j =>
      simp only [List.getElem?_cons_succ] at hc
      rw [prepended_overlap_from_cons]
      exact ih hrest j c hc

/-- Raising the bound preserves the range invariant. -/
theorem range_inv_mono {st : SplitState} {low low' : Int}
    (hle : low ≤ low') (h : range_inv st low) : range_inv st low' := by
  obtain ⟨h1, h2⟩ := h
  exact ⟨h1, fun hne => ⟨(h2 hne).1, le_trans (h2 hne).2 hle⟩⟩

/-- One splitter iteration preserves the range invariant at its own page. -/
theorem split_step_range {cs co : Nat} {seps : List (List Char)}
    {p : Int} {st : SplitState} {rem : List Char}
    (h : range_inv st p) :
    range_inv (split_step cs co seps p st rem).1 p := by
  obtain ⟨hchunks, hrange⟩ := h
  have hr1 :
      (if st.current_chunk.isEmpty then p
        else st.current_page_range.1 - 1) ≤ p := by
    by_cases hc : st.current_chunk.isEmpty
    · simp [hc]
    · simp only [hc, Bool.false_eq_true, if_false]
      have hne : st.current_chunk ≠ [] := by
        simpa [List.isEmpty_iff] using hc
      have := hrange hne
      omega
  simp only [split_step]
  by_cases hemit : cs ≤
      (if st.current_chunk.length + rem.length ≤ cs then
        st.current_chunk ++ rem
      else st.current_chunk ++
        rem.take (find_split_point seps cs rem)).length +
      st.overlap_text.length
  · simp only [if_pos hemit]
    refine ⟨?_, ?_⟩
    · intro c hc
      rcases List.mem_append.mp hc with hmem | hmem
      · exact hchunks c hmem
      · simp only [List.mem_singleton] at hmem
        subst hmem
        simpa using hr1
    · intro hne
      simp at hne
  · simp only [if_neg hemit]
    refine ⟨hchunks, ?_⟩
    intro _
    exact ⟨by simpa using hr1, le_refl p⟩

/-- The page loop preserves the range invariant at its page. -/
theorem page_loop_range {cs co : Nat} {seps : List (List Char)} {p : Int} :
    ∀ (fuel : Nat) (st : SplitState) (rem : List Char),
      range_inv st p →
      range_inv (page_loop cs co seps p fuel st rem) p := by
  intro fuel
  induction fuel with
  | zero => intro st rem h; simpa [page_loop] using h
  | succ n ih =>
    intro st rem h
    simp only [page_loop]
    by_cases hrem : rem.isEmpty
    · simpa [hrem] using h
    · simp only [hrem, Bool.false_eq_true, if_false]
      exact ih _ _ (split_step_range h)

/-- Folding over pages with non-decreasing page numbers keeps all emitted
ranges ordered and the running range ordered. -/
theorem fold_range {cs co : Nat} {seps : List (List Char)} :
    ∀ (pages : List PageInput) (st : SplitState) (low : Int),
      (∀ n ∈ pages.map PageInput.page_no, low ≤ n) →
      List.Pairwise (fun a b : Int => a ≤ b)
        (pages.map PageInput.page_no) →
      range_inv st low →
      ∃ low', range_inv
        (pages.foldl (process_page cs co seps) st) low' := by
  intro pages
  induction pages with
  | nil => intro st low _ _ h; exact ⟨low, h⟩
  | cons p rest ih =>
    intro st low hlow hpair h
    simp only [List.map_cons, List.pairwise_cons] at hpair
    obtain ⟨hp_rest, hpair_rest⟩ := hpair
    have hlp : low ≤ p.page_no := hlow _ (by simp)
    have h' : range_inv st p.page_no := range_inv_mono hlp h
    simp only [List.foldl_cons]
    refine ih (process_page cs co seps st p) p.page_no ?_ hpair_rest ?_
    · intro n hn
      exact hp_rest n (by simpa using hn)
    · simp only [process_page]
      by_cases hptext : p.text.isEmpty
      · simpa [hptext] using h'
      · simp only [hptext, Bool.false_eq_true, if_false]
        exact page_loop_range _ _ _ h'

/-- Every chunk list returned by `split_text` on pages with non-decreasing
page numbers has ordered page ranges. -/
theorem split_text_ranges {cs co : Nat} {seps : List (List Char)}
    {pages : List PageInput} {l : List BaseChunk}
    (hpair : List.Pairwise (fun a b : Int => a ≤ b)
      (pages.map PageInput.page_no))
    (h : split_text cs co seps pages = .ok l) :
    ∀ c ∈ l, c.page_range.start_page ≤ c.page_range.end_page := by
  unfold split_text at h
  by_cases hp : pages.isEmpty
  · simp [hp] at h
  · simp only [hp, Bool.false_eq_true, if_false, Except.ok.injEq] at h
    have hne : pages ≠ [] := by simpa [List.isEmpty_iff] using hp
    obtain ⟨q, qs, rfl⟩ : ∃ q qs, pages = q :: qs := by
      cases pages with
      | nil => exact absurd rfl hne
      | cons q qs => exact ⟨q, qs, rfl⟩
    have hlow : ∀ n ∈ (q :: qs).map PageInput.page_no, q.page_no ≤ n := by
      intro n hn
      simp only [List.map_cons, List.mem_cons] at hn
      rcases hn with rfl | hn
      · exact le_refl _
      · simp only [List.map_cons, List.pairwise_cons] at hpair
        exact hpair.1 n hn
    obtain ⟨low', hinv⟩ := fold_range (q :: qs) init_split_state q.page_no
      hlow hpair ⟨by simp [init_split_state], by simp [init_split_state]⟩
    obtain ⟨hchunks, hrange⟩ := hinv
    by_cases hcur :
        ((q :: qs).foldl (process_page cs co seps)
          init_split_state).current_chunk.isEmpty
    · rw [if_pos hcur] at h
      rw [← h]
      exact hchunks
    · rw [if_neg hcur] at h
      rw [← h]
      intro c hc
      rcases List.mem_append.mp hc with hmem | hmem
      · exact hchunks c hmem
      · simp only [List.mem_singleton] at hmem
        subst hmem
        have hnee : ((q :: qs).foldl (process_page cs co seps)
            init_split_state).current_chunk ≠ [] := by
          simpa [List.isEmpty_iff] using hcur
        exact (hrange hnee).1

/-- The buffer contents appended in one iteration are non-empty (with a
positive `chunk_size` and non-empty remaining text). -/
theorem chunk_piece_ne {cs : Nat} {seps : List (List Char)}
    {cur rem : List Char} (hcs : 1 ≤ cs) (hrem : rem ≠ []) :
    (if cur.length + rem.length ≤ cs then cur ++ rem
      else cur ++ rem.take (find_split_point seps cs rem)) ≠ [] := by
  by_cases hfit : cur.length + rem.length ≤ cs
  · simp [hfit, hrem]
  · simp only [hfit, if_false]
    have hpos := find_split_point_pos seps hcs hrem
    intro hcontra
    rcases List.append_eq_nil.mp hcontra with ⟨-, htake⟩
    rcases List.take_eq_nil_iff.mp htake with h0 | h0
    · omega
    · exact hrem h0

/-- One splitter iteration (at any page) preserves the head invariant. -/
theorem split_step_head {cs co : Nat} {seps : List (List Char)}
    {p₀ p : Int} {st : SplitState} {rem : List Char}
    (hcs : 1 ≤ cs) (hrem : rem ≠ []) (h : head_inv p₀ st) :
    head_inv p₀ (split_step cs co seps p st rem).1 := by
  obtain ⟨hhead, hempty⟩ := h
  simp only [split_step]
  by_cases hch : st.chunks = []
  · obtain ⟨hcur, hr1⟩ := hempty hch
    have hcur' : st.current_chunk.isEmpty = false := by
      simpa [List.isEmpty_iff] using hcur
    by_cases hemit : cs ≤
        (if st.current_chunk.length + rem.length ≤ cs then
          st.current_chunk ++ rem
        else st.current_chunk ++
          rem.take (find_split_point seps cs rem)).length +
        st.overlap_text.length
    · simp only [if_pos hemit]
      constructor
      · intro c hc
        simp only [hch, List.nil_append, List.head?_cons,
          Option.some.injEq] at hc
        rw [← hc]
        simp only [hcur', Bool.false_eq_true, if_false]
        omega
      · intro hcontra
        simp [hch] at hcontra
    · simp only [if_neg hemit]
      constructor
      · intro c hc
        simp only [hch, List.head?_nil] at hc
        exact absurd hc (by simp)
      · intro _
        refine ⟨chunk_piece_ne hcs hrem, ?_⟩
        simp only [hcur', Bool.false_eq_true, if_false]
        omega
  · have hh : ∀ tail, (st.chunks ++ tail).head? = st.chunks.head? := by
      intro tail
      cases hc : st.chunks with
      | nil => exact absurd hc hch
      | cons d ds => simp
    by_cases hemit : cs ≤
        (if st.current_chunk.length + rem.length ≤ cs then
          st.current_chunk ++ rem
        else st.current_chunk ++
          rem.take (find_split_point seps cs rem)).length +
        st.overlap_text.length
    · simp only [if_pos hemit]
      constructor
      · intro c hc
        rw [hh] at hc
        exact hhead c hc
      · intro hcontra
        exact absurd (List.append_eq_nil.mp hcontra).1 hch
    · simp only [if_neg hemit]
      exact ⟨hhead, fun hcontra => absurd hcontra hch⟩

/-- The first iteration, run from the initial state at the first non-empty
page `p₀`, establishes the head invariant. -/
theorem split_step_head_init {cs co : Nat} {seps : List (List Char)}
    {p₀ : Int} {rem : List Char} (hcs : 1 ≤ cs) (hrem : rem ≠ []) :
    head_inv p₀ (split_step cs co seps p₀ init_split_state rem).1 := by
  simp only [split_step, init_split_state]
  by_cases hemit : cs ≤
      (if ([] : List Char).length + rem.length ≤ cs then
        ([] : List Char) ++ rem
      else ([] : List Char) ++
        rem.take (find_split_point seps cs rem)).length +
      ([] : List Char).length
  · simp only [if_pos hemit]
    constructor
    · intro c hc
      simp only [List.nil_append, List.head?_cons, Option.some.injEq] at hc
      rw [← hc]
      simp
    · intro hcontra
      simp at hcontra
  · simp only [if_neg hemit]
    constructor
    · intro c hc
      simp at hc
    · intro _
      constructor
      · simpa using @chunk_piece_ne cs seps [] rem hcs hrem
      · simp

/-- The page loop preserves the head invariant. -/
theorem page_loop_head {cs co : Nat} {seps : List (List Char)}
    {p₀ p : Int} (hcs : 1 ≤ cs) :
    ∀ (fuel : Nat) (st : SplitState) (rem : List Char),
      head_inv p₀ st →
      head_inv p₀ (page_loop cs co seps p fuel st rem) := by
  intro fuel
  induction fuel with
  | zero => intro st rem h; simpa [page_loop] using h
  | succ n ih =>
    intro st rem h
    simp only [page_loop]
    by_cases hrem : rem.isEmpty
    · simpa [hrem] using h
    · simp only [hrem, Bool.false_eq_true, if_false]
      have hrem' : rem ≠ [] := by simpa [List.isEmpty_iff] using hrem
      exact ih _ _ (split_step_head hcs hrem' h)

/-- Running the page loop from the initial state on the first non-empty
page establishes the head invariant. -/
theorem page_loop_head_init {cs co : Nat} {seps : List (List Char)}
    {p₀ : Int} (hcs : 1 ≤ cs) (fuel : Nat) (rem : List Char)
    (hrem : rem ≠ []) :
    head_inv p₀
      (page_loop cs co seps p₀ (fuel + 1) init_split_state rem) := by
  simp only [page_loop]
  have hrem' : rem.isEmpty = false := by simpa [List.isEmpty_iff] using hrem
  simp only [hrem', Bool.false_eq_true, if_false]
  exact page_loop_head hcs _ _ _ (split_step_head_init hcs hrem)

/-- Folding further pages preserves the head invariant. -/
theorem fold_head {cs co : Nat} {seps : List (List Char)} {p₀ : Int}
    (hcs : 1 ≤ cs) :
    ∀ (pages : List PageInput) (st : SplitState),
      head_inv p₀ st →
      head_inv p₀ (pages.foldl (process_page cs co seps) st) := by
  intro pages
  induction pages with
  | nil => intro st h; simpa using h
  | cons p rest ih =>
    intro st h
    simp only [List.foldl_cons]
    refine ih _ ?_
    simp only [process_page]
    by_cases hptext : p.text.isEmpty
    · simpa [hptext] using h
    · simp only [hptext, Bool.false_eq_true, if_false]
      exact page_loop_head hcs _ _ _ h

/-- After folding all pages, the head invariant holds at the first
non-empty page's number. -/
theorem fold_head_first {cs co : Nat} {seps : List (List Char)}
    (hcs : 1 ≤ cs) :
    ∀ (pages : List PageInput) (p₀ : Int),
      first_nonempty_page pages = some p₀ →
      head_inv p₀
        (pages.foldl (process_page cs co seps) init_split_state) := by
  intro pages
  induction pages with
  | nil => intro p₀ h; simp [first_nonempty_page] at h
  | cons p rest ih =>
    intro p₀ h
    simp only [first_nonempty_page, List.find?_cons] at h
    by_cases hptext : p.text.isEmpty
    · simp only [hptext, Bool.not_true, if_neg] at h
      simp only [List.foldl_cons, process_page, hptext, if_pos]
      exact ih p₀ h
    · have hptext' : p.text.isEmpty = false := by
        simpa using hptext
      simp only [hptext', Bool.not_false, if_pos] at h
      obtain rfl : p.page_no = p₀ := by simpa using h
      simp only [List.foldl_cons, process_page, hptext',
        Bool.false_eq_true, if_false]
      have hrem : p.text ≠ [] := by
        simpa [List.isEmpty_iff] using hptext
      exact fold_head hcs rest _
        (page_loop_head_init hcs p.text.length p.text hrem)

/-- The first chunk returned by `split_text` starts no later than the
first non-empty page. -/
theorem split_text_head {cs co : Nat} {seps : List (List Char)}
    {pages : List PageInput} {l : List BaseChunk} {p₀ : Int}
    (hcs : 1 ≤ cs) (hfirst : first_nonempty_page pages = some p₀)
    (h : split_text cs co seps pages = .ok l) :
    ∀ c, l.head? = some c → c.page_range.start_page ≤ p₀ := by
  unfold split_text at h
  by_cases hp : pages.isEmpty
  · simp [hp] at h
  · simp only [hp, Bool.false_eq_true, if_false, Except.ok.injEq] at h
    obtain ⟨hhead, hempty⟩ := fold_head_first hcs pages p₀ hfirst
    set st := pages.foldl (process_page cs co seps) init_split_state with hst
    by_cases hcur : st.current_chunk.isEmpty
    · rw [if_pos hcur] at h
      rw [← h]
      exact hhead
    · rw [if_neg hcur] at h
      rw [← h]
      intro c hc
      cases hch : st.chunks with
      | nil =>
        simp only [hch, List.nil_append, List.head?_cons,
          Option.some.injEq] at hc
        rw [← hc]
        exact (hempty hch).2
      | cons d ds =>
        simp only [hch, List.cons_append, List.head?_cons,
          Option.some.injEq] at hc
        rw [← hc]
        exact hhead d (by rw [hch]; rfl)

/-! ## Claim theorems -/

/-- C2, counterexample: with `chunk_size = 10`, `chunk_overlap = 0` and the
default separators, the pages `[(0, "abcd"), (1, "12345678.\nXYZ")]` produce
a first chunk of 14 characters with an empty prepended overlap, although the
separator `".\n"` matches inside the window (`rfind` hits index 8).  This
violates `length(chunk) ≤ chunk_size + length(overlap) = 10`. -/
theorem C2_counterexample :
    py_rfind "12345678.\nXYZ".data ['.', '\n'] 10 = some 8 ∧
    split_text 10 0 DEFAULT_SEPARATORS
        [⟨0, "abcd".data⟩, ⟨1, "12345678.\nXYZ".data⟩] =
      .ok [⟨"0", "abcd12345678.\n".data, ⟨-1, 1⟩⟩,
           ⟨"1", "abcd12345678.\nXYZ".data, ⟨1, 1⟩⟩] ∧
    ("abcd12345678.\n".data).length = 14 ∧
    prepended_overlap 0 DEFAULT_SEPARATORS
        [⟨"0", "abcd12345678.\n".data, ⟨-1, 1⟩⟩,
         ⟨"1", "abcd12345678.\nXYZ".data, ⟨1, 1⟩⟩] 0 = [] ∧
    ¬ (14 ≤ 10 + ([] : List Char).length) := by
  exact ⟨by decide, by rfl, by decide, by rfl, by decide⟩

/-- C2 (amended): every chunk emitted by `split_text` decomposes as its
prepended overlap (empty for chunk 0, `_create_overlap_text` of the full
previous chunk otherwise) followed by at most `2 * chunk_size - 1`
characters of new buffer content — whether or not a separator matched in
the window — so `length(chunk) ≤ length(overlap) + 2 * chunk_size - 1`. -/
theorem C2_splitter_size_bound {cs co : Nat} {seps : List (List Char)}
    {pages : List PageInput} {l : List BaseChunk}
    (hcs : 1 ≤ cs) (h : split_text cs co seps pages = .ok l) :
    ∀ (i : Nat) (c : BaseChunk), l[i]? = some c →
      ∃ b, c.chunk = prepended_overlap co seps l i ++ b ∧
        b.length ≤ 2 * cs - 1 ∧
        c.chunk.length ≤ (prepended_overlap co seps l i).length +
          (2 * cs - 1) := by
  intro i c hc
  obtain ⟨b, hb, hlen⟩ :=
    chunk_chain_index (split_text_chain hcs h) i c hc
  simp only [prepended_overlap]
  refine ⟨b, hb, hlen, ?_⟩
  rw [hb]
  simp only [List.length_append]
  omega

/-- C2 witness: the amended bound instantiated on a concrete run. -/
theorem C2_splitter_size_bound_witness :
    (1 : Nat) ≤ 10 ∧
    (∃ b, (⟨"1", "Para one.\nPara two.".data, ⟨0, 0⟩⟩ : BaseChunk).chunk =
        prepended_overlap 0 DEFAULT_SEPARATORS
          [⟨"0", "Para one.\n".data, ⟨0, 0⟩⟩,
           ⟨"1", "Para one.\nPara two.".data, ⟨0, 0⟩⟩] 1 ++ b ∧
      b.length ≤ 2 * 10 - 1 ∧
      (⟨"1", "Para one.\nPara two.".data, ⟨0, 0⟩⟩ : BaseChunk).chunk.length ≤
        (prepended_overlap 0 DEFAULT_SEPARATORS
          [⟨"0", "Para one.\n".data, ⟨0, 0⟩⟩,
           ⟨"1", "Para one.\nPara two.".data, ⟨0, 0⟩⟩] 1).length +
          (2 * 10 - 1)) :=
  ⟨by decide,
    C2_splitter_size_bound (by decide)
      (by rfl :
        split_text 10 0 DEFAULT_SEPARATORS
          [⟨0, "Para one.\n\nPara two.".data⟩] =
        .ok [⟨"0", "Para one.\n".data, ⟨0, 0⟩⟩,
             ⟨"1", "Para one.\nPara two.".data, ⟨0, 0⟩⟩])
      1 _ (by rfl)⟩

/-- C3, counterexample: on `[(0, "Para one.\n\nPara two.")]` with
`chunk_size = 10`, `chunk_overlap = 0`, the splitter returns the chunk texts
`"Para one.\n"` (the second newline is consumed by `lstrip`) and
`"Para one.\nPara two."` (the zero-overlap branch of `_create_overlap_text`
returns the whole previous chunk, which gets prepended) — not the claimed
`"Para one.\n\n"` and `"Para two."`. -/
theorem C3_counterexample :
    (split_text 10 0 DEFAULT_SEPARATORS
        [⟨0, "Para one.\n\nPara two.".data⟩]).map
      (fun l => l.map (fun c => c.chunk)) =
      .ok ["Para one.\n".data, "Para one.\nPara two.".data] ∧
    "Para one.\n".data ≠ "Para one.\n\n".data ∧
    "Para one.\nPara two.".data ≠ "Para two.".data := by
  exact ⟨by rfl, by decide, by decide⟩

/-- C3 (amended): on `[(0, "Para one.\n\nPara two.")]` with
`chunk_size = 10`, `chunk_overlap = 0`, `split_text` returns exactly two
chunks, `"Para one.\n"` and `"Para one.\nPara two."`, with `chunk_no`
`"0"` and `"1"` and page range 0-0. -/
theorem C3_scenario_actual :
    split_text 10 0 DEFAULT_SEPARATORS
        [⟨0, "Para one.\n\nPara two.".data⟩] =
      .ok [⟨"0", "Para one.\n".data, ⟨0, 0⟩⟩,
           ⟨"1", "Para one.\nPara two.".data, ⟨0, 0⟩⟩] := by
  rfl

/-- C4, counterexample: splitting the single page
`"abcdefghijklmnopqrstuvwxyz1234"` with `chunk_size = 10`,
`chunk_overlap = 0` yields chunks `"abcdefghij"`, `"abcdefghijklmnopqrst"`,
`"abcdefghijklmnopqrstuvwxyz1234"`.  The overlap the code prepends to chunk
2 is `_create_overlap_text` of the FULL chunk 1 (here the whole of chunk 1,
20 characters), not the trailing `chunk_overlap = 0` characters of the
pre-overlap buffer, and it is not a suffix of chunk 1's un-overlapped
content `"klmnopqrst"` (chunk 1 minus its own prepended overlap). -/
theorem C4_counterexample :
    split_text 10 0 DEFAULT_SEPARATORS
        [⟨0, "abcdefghijklmnopqrstuvwxyz1234".data⟩] =
      .ok [⟨"0", "abcdefghij".data, ⟨0, 0⟩⟩,
           ⟨"1", "abcdefghijklmnopqrst".data, ⟨0, 0⟩⟩,
           ⟨"2", "abcdefghijklmnopqrstuvwxyz1234".data, ⟨0, 0⟩⟩] ∧
    ("abcdefghijklmnopqrst".data).drop
        (create_overlap_text 0 DEFAULT_SEPARATORS
          "abcdefghij".data).length = "klmnopqrst".data ∧
    create_overlap_text 0 DEFAULT_SEPARATORS
        "abcdefghijklmnopqrst".data ≠ [] ∧
    ¬ (create_overlap_text 0 DEFAULT_SEPARATORS
        "abcdefghijklmnopqrst".data <:+ "klmnopqrst".data) := by
  exact ⟨by rfl, by rfl, by decide, by decide⟩

/-- C4 (amended): for consecutive chunks `i` and `i + 1` of a `split_text`
run, the overlap prepended to chunk `i + 1` is `_create_overlap_text`
applied to the FULL text of chunk `i` (overlap included), and it is a
suffix of chunk `i`'s full text (not, in general, of its un-overlapped
content). -/
theorem C4_overlap_law {cs co : Nat} {seps : List (List Char)}
    {pages : List PageInput} {l : List BaseChunk}
    (hcs : 1 ≤ cs) (h : split_text cs co seps pages = .ok l) :
    ∀ (i : Nat) (c c' : BaseChunk), l[i]? = some c → l[i + 1]? = some c' →
      ∃ b, c'.chunk = create_overlap_text co seps c.chunk ++ b ∧
        create_overlap_text co seps c.chunk <:+ c.chunk := by
  intro i c c' hc hc'
  obtain ⟨b, hb, -⟩ :=
    chunk_chain_index (split_text_chain hcs h) (i + 1) c' hc'
  refine ⟨b, ?_, create_overlap_text_suffix co seps c.chunk⟩
  rw [hb]
  congr 1
  simp [prepended_overlap_from, hc]

/-- C4 witness: the (amended) overlap law instantiated on a concrete run. -/
theorem C4_overlap_law_witness :
    (1 : Nat) ≤ 10 ∧
    (∃ b, (⟨"1", "abcdefghijklmnopqrst".data, ⟨0, 0⟩⟩ : BaseChunk).chunk =
        create_overlap_text 0 DEFAULT_SEPARATORS
          (⟨"0", "abcdefghij".data, ⟨0, 0⟩⟩ : BaseChunk).chunk ++ b ∧
      create_overlap_text 0 DEFAULT_SEPARATORS
          (⟨"0", "abcdefghij".data, ⟨0, 0⟩⟩ : BaseChunk).chunk <:+
        (⟨"0", "abcdefghij".data, ⟨0, 0⟩⟩ : BaseChunk).chunk) :=
  ⟨by decide,
    C4_overlap_law (by decide)
      (by rfl :
        split_text 10 0 DEFAULT_SEPARATORS
          [⟨0, "abcdefghijklmnopqrstuvwxyz1234".data⟩] =
        .ok [⟨"0", "abcdefghij".data, ⟨0, 0⟩⟩,
             ⟨"1", "abcdefghijklmnopqrst".data, ⟨0, 0⟩⟩,
             ⟨"2", "abcdefghijklmnopqrstuvwxyz1234".data, ⟨0, 0⟩⟩])
      0 _ _ (by rfl) (by rfl)⟩

/-- C5, counterexample: on pages `[(5, "abcd"), (0, "xxxxxxxxxxxxxxxxxxxx")]`
(decreasing page numbers) with `chunk_size = 10`, `chunk_overlap = 0`, the
first chunk's page range is `(4, 0)`: its start page exceeds its end page,
and it differs from 5, the page number of the first page with non-empty
text (the loop decrements the start page whenever the buffer is carried
into another iteration). -/
theorem C5_counterexample :
    split_text 10 0 DEFAULT_SEPARATORS
        [⟨5, "abcd".data⟩, ⟨0, "xxxxxxxxxxxxxxxxxxxx".data⟩] =
      .ok [⟨"0", "abcdxxxxxxxxxx".data, ⟨4, 0⟩⟩,
           ⟨"1", "abcdxxxxxxxxxxxxxxxxxxxx".data, ⟨0, 0⟩⟩] ∧
    ¬ ((4 : Int) ≤ 0) ∧
    first_nonempty_page
        [⟨5, "abcd".data⟩, ⟨0, "xxxxxxxxxxxxxxxxxxxx".data⟩] = some 5 ∧
    (4 : Int) ≠ 5 := by
  exact ⟨by rfl, by decide, by rfl, by decide⟩

/-- C5 (amended): when the input pages have non-decreasing page numbers,
every chunk produced by `split_text` has
`page_range.start_page ≤ page_range.end_page`, and the first emitted
chunk's start page is AT MOST the page number of the first page with
non-empty text (it drops by one for each iteration that carries the buffer
before the first chunk closes). -/
theorem C5_page_range_bounds {cs co : Nat} {seps : List (List Char)}
    {pages : List PageInput} {l : List BaseChunk}
    (hcs : 1 ≤ cs)
    (hpair : List.Pairwise (fun a b : Int => a ≤ b)
      (pages.map PageInput.page_no))
    (h : split_text cs co seps pages = .ok l) :
    (∀ c ∈ l, c.page_range.start_page ≤ c.page_range.end_page) ∧
    (∀ (c : BaseChunk) (p₀ : Int), l.head? = some c →
      first_nonempty_page pages = some p₀ →
      c.page_range.start_page ≤ p₀) :=
  ⟨split_text_ranges hpair h,
   fun c _ hc hp => split_text_head hcs hp h c hc⟩

/-- C5 witness: the amended range bounds instantiated on a concrete run. -/
theorem C5_page_range_bounds_witness :
    (∀ c ∈ [(⟨"0", "Para one.\n".data, ⟨0, 0⟩⟩ : BaseChunk),
            ⟨"1", "Para one.\nPara two.".data, ⟨0, 0⟩⟩],
      c.page_range.start_page ≤ c.page_range.end_page) ∧
    (∀ (c : BaseChunk) (p₀ : Int),
      ([(⟨"0", "Para one.\n".data, ⟨0, 0⟩⟩ : BaseChunk),
        ⟨"1", "Para one.\nPara two.".data, ⟨0, 0⟩⟩] : List BaseChunk).head? =
          some c →
      first_nonempty_page [⟨0, "Para one.\n\nPara two.".data⟩] = some p₀ →
      c.page_range.start_page ≤ p₀) :=
  C5_page_range_bounds (by decide) (by simp)
    (by rfl :
      split_text 10 0 DEFAULT_SEPARATORS
        [⟨0, "Para one.\n\nPara two.".data⟩] =
      .ok [⟨"0", "Para one.\n".data, ⟨0, 0⟩⟩,
           ⟨"1", "Para one.\nPara two.".data, ⟨0, 0⟩⟩])

/-- C1: for every input, `process_file` returns a `ProcessingResult` (the
embedding is a total function) carrying the input file name, and whenever
an orchestrator-level fatal error occurs (extraction failure, an
image-stage exception, or a join exception propagating to the top) the
returned result has `num_pages = num_texts = num_images = 0` and an error
list consisting of exactly one fatal entry. -/
theorem C1_process_file_contract :
    ∀ (file_name : String) (o : StageOutcomes),
      (process_file file_name o).file_name = file_name ∧
      (fatal_occurred o →
        (process_file file_name o).num_pages = 0 ∧
        (process_file file_name o).num_texts = 0 ∧
        (process_file file_name o).num_images = 0 ∧
        ∃ e, (process_file file_name o).errors =
          some ["Fatal error: " ++ e]) := by
  intro name o
  obtain ⟨ext, summ, img, gth⟩ := o
  cases ext with
  | error e =>
    exact ⟨rfl, fun _ => ⟨rfl, rfl, rfl, ⟨e, rfl⟩⟩⟩
  | ok t =>
    obtain ⟨np, nt, ni⟩ := t
    by_cases hni : ni = 0
    · subst hni
      cases gth with
      | error e =>
        constructor
        · simp [process_file, join_and_return, fatal_result]
        · intro _
          refine ⟨?_, ?_, ?_, ⟨e, ?_⟩⟩ <;>
            simp [process_file, join_and_return, fatal_result]
      | ok u =>
        constructor
        · simp [process_file, join_and_return]
        · intro hf
          simp [fatal_occurred] at hf
    · cases img with
      | error e =>
        constructor
        · simp [process_file, fatal_result, hni]
        · intro _
          refine ⟨?_, ?_, ?_, ⟨e, ?_⟩⟩ <;>
            simp [process_file, fatal_result, hni]
      | ok u =>
        cases gth with
        | error e =>
          constructor
          · simp [process_file, join_and_return, fatal_result, hni]
          · intro _
            refine ⟨?_, ?_, ?_, ⟨e, ?_⟩⟩ <;>
              simp [process_file, join_and_return, fatal_result, hni]
        | ok u' =>
          constructor
          · simp [process_file, join_and_return, hni]
          · intro hf
            simp [fatal_occurred, hni] at hf

/-- C1 witness: an extraction failure yields the zero-count single-entry
fatal result with the file name preserved. -/
theorem C1_process_file_contract_witness :
    (process_file "file.pdf"
        ⟨.error "cannot open PDF", .ok "", .ok (), .ok ()⟩).file_name =
      "file.pdf" ∧
    ((process_file "file.pdf"
        ⟨.error "cannot open PDF", .ok "", .ok (), .ok ()⟩).num_pages = 0 ∧
      (process_file "file.pdf"
        ⟨.error "cannot open PDF", .ok "", .ok (), .ok ()⟩).num_texts = 0 ∧
      (process_file "file.pdf"
        ⟨.error "cannot open PDF", .ok "", .ok (), .ok ()⟩).num_images = 0 ∧
      ∃ e, (process_file "file.pdf"
        ⟨.error "cannot open PDF", .ok "", .ok (), .ok ()⟩).errors =
          some ["Fatal error: " ++ e]) :=
  ⟨(C1_process_file_contract "file.pdf"
      ⟨.error "cannot open PDF", .ok "", .ok (), .ok ()⟩).1,
   (C1_process_file_contract "file.pdf"
      ⟨.error "cannot open PDF", .ok "", .ok (), .ok ()⟩).2 trivial⟩

/-- C6, counterexample: when image processing fails with message `"boom"`
(one image extracted, no texts), the stage string
`"Image processing failed: boom"` is appended to the in-flight list but
the re-raise reaches the outer handler, which returns a FRESH single-entry
list: the returned errors are `["Fatal error: boom"]` and do not contain
the stage string — the stage error information is lost from the result. -/
theorem C6_counterexample :
    (process_file "f.pdf"
        ⟨.ok (1, 0, 1), .ok "s", .error "boom", .ok ()⟩).errors =
      some ["Fatal error: boom"] ∧
    ¬ ("Image processing failed: boom" ∈ ["Fatal error: boom"]) := by
  exact ⟨by decide, by decide⟩

/-- C6 (amended): stage error strings survive into the returned result only
for stages that do not re-raise — a summary-generation failure appears
verbatim in the final error list — while for re-raising stages (image
processing, join) the returned result carries only the single fatal entry
built by the outer handler, and the appended stage string is dropped. -/
theorem C6_stage_error_propagation :
    (∀ (name : String) (np nt ni : Nat) (es : String),
      (nt ≠ 0 ∨ ni ≠ 0) →
      (process_file name
          ⟨.ok (np, nt, ni), .error es, .ok (), .ok ()⟩).errors =
        some ["Summary generation failed: " ++ es]) ∧
    (∀ (name : String) (np nt ni : Nat) (summ : Except String String)
       (ei : String) (gth : Except String Unit),
      ni ≠ 0 →
      (process_file name
          ⟨.ok (np, nt, ni), summ, .error ei, gth⟩).errors =
        some ["Fatal error: " ++ ei]) := by
  constructor
  · intro name np nt ni es hsome
    by_cases hni : ni = 0
    · subst hni
      have hnt : nt ≠ 0 := by
        rcases hsome with h | h
        · exact h
        · exact absurd rfl h
      simp [process_file, join_and_return, hsome, hnt]
    · simp [process_file, join_and_return, hsome, hni]
  · intro name np nt ni summ ei gth hni
    simp [process_file, fatal_result, hni]

/-- C6 witness: the amended propagation facts at concrete stage outcomes. -/
theorem C6_stage_error_propagation_witness :
    ((process_file "f.pdf"
        ⟨.ok (3, 2, 0), .error "model down", .ok (), .ok ()⟩).errors =
      some ["Summary generation failed: " ++ "model down"]) ∧
    ((process_file "f.pdf"
        ⟨.ok (1, 0, 1), .ok "s", .error "boom2", .ok ()⟩).errors =
      some ["Fatal error: " ++ "boom2"]) :=
  ⟨C6_stage_error_propagation.1 "f.pdf" 3 2 0 "model down"
      (Or.inl (by decide)),
   C6_stage_error_propagation.2 "f.pdf" 1 0 1 (.ok "s") "boom2" (.ok ())
      (by decide)⟩

/-- C8: the infographic classification is a deterministic function of the
page's drawing statistics — equal visible non-rectangle primitive counts
give equal classifications — and at the threshold boundary a page with
exactly 9 visible non-rectangle primitives is classified image-only while
a page with exactly 8 is not. -/
theorem C8_classifier_boundary :
    ∀ (ds ds' : List Drawing),
      (visible_non_re_count ds = visible_non_re_count ds' →
        is_infographic_page ds = is_infographic_page ds') ∧
      (visible_non_re_count ds = 9 → is_infographic_page ds = true) ∧
      (visible_non_re_count ds = 8 → is_infographic_page ds = false) := by
  intro ds ds'
  refine ⟨fun h => ?_, fun h => ?_, fun h => ?_⟩ <;>
    simp [is_infographic_page, h]

/-- C8 witness: a page with 9 visible non-rectangle line primitives is
flagged, one with 8 is not. -/
theorem C8_classifier_boundary_witness :
    (visible_non_re_count
        [⟨some [], none, none, none, none, List.replicate 9 "l"⟩] = 9 ∧
      is_infographic_page
        [⟨some [], none, none, none, none, List.replicate 9 "l"⟩] = true) ∧
    (visible_non_re_count
        [⟨some [], none, none, none, none, List.replicate 8 "l"⟩] = 8 ∧
      is_infographic_page
        [⟨some [], none, none, none, none, List.replicate 8 "l"⟩] = false) :=
  ⟨⟨by decide,
    (C8_classifier_boundary
      [⟨some [], none, none, none, none, List.replicate 9 "l"⟩]
      []).2.1 (by decide)⟩,
   ⟨by decide,
    (C8_classifier_boundary
      [⟨some [], none, none, none, none, List.replicate 8 "l"⟩]
      []).2.2 (by decide)⟩⟩

/-- C10: every image chunk built by `_create_image_chunks` takes its
`chunk_no` from `"{page_no}_{image_no}"` of the paired image and a
degenerate page range at that image's page, and a page processed as a
whole-page image yields exactly one `FileImage` whose `image_no` equals
its `page_no`. -/
theorem C10_image_chunk_shape :
    (∀ (images : List FileImage) (descriptions : List String)
        (c : BaseChunk), c ∈ create_image_chunks images descriptions →
      ∃ img, img ∈ images ∧
        c.chunk_no = toString img.page_no ++ "_" ++ toString img.image_no ∧
        c.page_range = ⟨img.page_no, img.page_no⟩) ∧
    (∀ (page_no : Int) (b64 : String),
      (process_page_as_an_image page_no b64).2 = [⟨page_no, page_no, b64⟩]) := by
  constructor
  · intro images descriptions c hc
    simp only [create_image_chunks, List.mem_map] at hc
    obtain ⟨p, hp, rfl⟩ := hc
    exact ⟨p.1, (List.of_mem_zip hp).1, rfl, rfl⟩
  · intro pn b
    rfl

/-- C10 witness: the chunk shape at a concrete image/description pair. -/
theorem C10_image_chunk_shape_witness :
    ∃ img, img ∈ [(⟨2, 5, "img64"⟩ : FileImage)] ∧
      (⟨"2_5", "a chart".data, ⟨2, 2⟩⟩ : BaseChunk).chunk_no =
        toString img.page_no ++ "_" ++ toString img.image_no ∧
      (⟨"2_5", "a chart".data, ⟨2, 2⟩⟩ : BaseChunk).page_range =
        ⟨img.page_no, img.page_no⟩ :=
  C10_image_chunk_shape.1 [⟨2, 5, "img64"⟩] ["a chart"]
    ⟨"2_5", "a chart".data, ⟨2, 2⟩⟩ (by decide)

/-- C9, counterexample: with the counter at 1 (`is_busy` true, i.e. a batch
in flight), a new upload request is still admitted — `process_uploaded_files`
never consults the counter and never rejects, contradicting the claimed
"rejected outright while the counter is positive". -/
theorem C9_counterexample :
    TaskCounter.is_busy ⟨1⟩ = true ∧
    (process_uploaded_files ⟨1⟩ [⟨"a.pdf", "x".data⟩]).1 = true ∧
    (process_uploaded_files ⟨1⟩ [⟨"a.pdf", "x".data⟩]).2 = ⟨1⟩ := by
  exact ⟨by decide, rfl, rfl⟩

/-- C9 (amended): `TaskCounter.increment`/`decrement` add and subtract one
and `is_busy` is true exactly when the counter is positive, but no code in
the upload path invokes the counter: `process_uploaded_files` admits every
batch and leaves any counter state unchanged, whatever its value. -/
theorem C9_counter_never_gates :
    ∀ (t c : TaskCounter) (files : List FileData),
      t.increment.active_tasks = t.active_tasks + 1 ∧
      t.decrement.active_tasks = t.active_tasks - 1 ∧
      (t.is_busy = true ↔ 0 < t.active_tasks) ∧
      process_uploaded_files c files = (true, c) := by
  intro t c files
  refine ⟨rfl, rfl, ?_, rfl⟩
  simp [TaskCounter.is_busy]

/-- C7, counterexample: submitting the same bytes twice (same name, same
content, pipeline succeeding) registers NO content hash — the registry's
hash set stays empty — and the second submission is skipped by the
FILE-NAME check, not a hash check; the same bytes under a different file
name are fully reprocessed, which a hash-based check would have caught. -/
theorem C7_counterexample :
    (process_files_in_background
        (fun fi => ⟨fi.filename, 1, 1, 0, none⟩) "u" ⟨[], [], []⟩
        [⟨"a.pdf", "PDF".data⟩, ⟨"a.pdf", "PDF".data⟩]).1.known_hashes =
      [] ∧
    (process_files_in_background
        (fun fi => ⟨fi.filename, 1, 1, 0, none⟩) "u" ⟨[], [], []⟩
        [⟨"a.pdf", "PDF".data⟩, ⟨"a.pdf", "PDF".data⟩]).2 =
      [.processed "a.pdf" ⟨"a.pdf", 1, 1, 0, none⟩,
       .alreadyProcessed "a.pdf"] ∧
    (process_files_in_background
        (fun fi => ⟨fi.filename, 1, 1, 0, none⟩) "u" ⟨[], [], []⟩
        [⟨"a.pdf", "PDF".data⟩, ⟨"b.pdf", "PDF".data⟩]).2 =
      [.processed "a.pdf" ⟨"a.pdf", 1, 1, 0, none⟩,
       .processed "b.pdf" ⟨"b.pdf", 1, 1, 0, none⟩] := by
  exact ⟨by rfl, by rfl, by rfl⟩

/-- C7 (amended): when the pipeline reports no errors and the marked name
`user + "_" + filename` is not yet known, the first submission is
processed and registers the marked FILE NAME (the hash set is untouched);
a second submission of the same user/file name is recognised by the
file-name check and is not reprocessed (it yields the `already processed`
entry instead of a pipeline result). -/
theorem C7_dedup_by_file_name :
    ∀ (pipeline : FileData → ProcessingResult) (user : String)
      (kd : KnownDict) (fi : FileData),
      errors_falsy (pipeline fi).errors = true →
      duplicate_by_file_name kd (user ++ "_" ++ fi.filename) = false →
      (process_files_in_background pipeline user kd [fi, fi]).2 =
        [.processed fi.filename (pipeline fi),
         .alreadyProcessed fi.filename] ∧
      (process_files_in_background pipeline user kd [fi, fi]).1.known_hashes =
        kd.known_hashes ∧
      duplicate_by_file_name
        (process_files_in_background pipeline user kd [fi, fi]).1
        (user ++ "_" ++ fi.filename) = true := by
  intro pipeline user kd fi hok hdup
  have hne : (user ++ "_" ++ fi.filename) ≠ "" := by
    intro hcontra
    have hlen := congrArg String.length hcontra
    simp [String.length_append] at hlen
    exact absurd hlen.1.2 (by decide)
  simp only [duplicate_by_file_name, decide_eq_false_iff_not] at hdup
  have h1 : bg_step pipeline user (kd, []) fi =
      (checker_update kd none (some (user ++ "_" ++ fi.filename)) none,
        [.processed fi.filename (pipeline fi)]) := by
    simp [bg_step, duplicate_by_file_name, hdup, hok]
  have h2 : (checker_update kd none
      (some (user ++ "_" ++ fi.filename)) none).known_file_names =
      kd.known_file_names ++ [user ++ "_" ++ fi.filename] := by
    simp [checker_update, add_to_known_dict, hne, hdup]
  have hmem : (user ++ "_" ++ fi.filename) ∈
      (checker_update kd none
        (some (user ++ "_" ++ fi.filename)) none).known_file_names := by
    rw [h2]
    simp
  have h3 : bg_step pipeline user
      (checker_update kd none (some (user ++ "_" ++ fi.filename)) none,
        [.processed fi.filename (pipeline fi)]) fi =
      (checker_update kd none (some (user ++ "_" ++ fi.filename)) none,
        [.processed fi.filename (pipeline fi),
         .alreadyProcessed fi.filename]) := by
    simp [bg_step, duplicate_by_file_name, hmem]
  simp only [process_files_in_background, List.foldl_cons, List.foldl_nil,
    h1, h3]
  refine ⟨trivial, ?_, ?_⟩
  · simp [checker_update, add_to_known_dict]
  · simp [duplicate_by_file_name, hmem]

/-- C7 witness: the amended dedup behaviour at a concrete two-submission
run. -/
theorem C7_dedup_by_file_name_witness :
    (process_files_in_background
        (fun fi => ⟨fi.filename, 2, 3, 1, none⟩) "alice" ⟨[], [], []⟩
        [⟨"r.pdf", "BYTES".data⟩, ⟨"r.pdf", "BYTES".data⟩]).2 =
      [.processed "r.pdf" ⟨"r.pdf", 2, 3, 1, none⟩,
       .alreadyProcessed "r.pdf"] ∧
    (process_files_in_background
        (fun fi => ⟨fi.filename, 2, 3, 1, none⟩) "alice" ⟨[], [], []⟩
        [⟨"r.pdf", "BYTES".data⟩, ⟨"r.pdf", "BYTES".data⟩]).1.known_hashes =
      (⟨[], [], []⟩ : KnownDict).known_hashes ∧
    duplicate_by_file_name
      (process_files_in_background
        (fun fi => ⟨fi.filename, 2, 3, 1, none⟩) "alice" ⟨[], [], []⟩
        [⟨"r.pdf", "BYTES".data⟩, ⟨"r.pdf", "BYTES".data⟩]).1
      ("alice" ++ "_" ++ "r.pdf") = true :=
  C7_dedup_by_file_name (fun fi => ⟨fi.filename, 2, 3, 1, none⟩) "alice"
    ⟨[], [], []⟩ ⟨"r.pdf", "BYTES".data⟩ (by decide) (by decide)
